import Mathlib

/-!
Verification of the aggregation pipeline of the umami-clone analytics dashboard.

The embedding models the pure aggregation logic of
  - src/lib/metrics.ts (client-side aggregations over fetched rows),
  - src/setup/sql/get_dashboard_data.sql (the stored procedure),
  - src/app/api/stats/referrer/route.ts (referrer pair aggregation),
  - the per-domain stats route (src/unnamed/part_001).

Database rows are lists of `PageView`; the date-range / domain-equality query
filters happen upstream of the aggregation logic and are represented by the
choice of the input row list.  JavaScript numbers are modelled as exact
rationals: every percentage computed here is a ratio of row counts put through
an explicit rounding function, and on such values the double-precision
evaluation performed by the running code agrees with the exact-rational
evaluation (the counts involved are far below the scale at which the
floating-point rounding of a ratio could cross a rounding-boundary of the
outer Math.round).
-/

/-- One row of the metrics_page_views table.  Nullable columns are `Option`;
`referrer` is the referrer_normalized column and `rawReferrer` the raw
referrer column (the referrer pair route selects the raw one). -/
structure PageView where
  domain : String
  path : String
  rawReferrer : Option String
  referrer : Option String
  browser : Option String
  os : Option String
  device : Option String
  country : Option String
  ip : String
deriving DecidableEq

/-- One output partition of a dimension aggregation (browser/os/device/country/
domain/referrer stats all share this shape; `key` is the dimension value). -/
structure AggStat where
  key : String
  views : ℕ
  visitors : ℕ
  percentage : ℚ
deriving DecidableEq

/-- One output entry of the referrer pair aggregation
(src/app/api/stats/referrer/route.ts). -/
structure PairStat where
  referrerPage : String
  targetPage : String
  views : ℕ
  visitors : ℕ
  percentage : ℚ
deriving DecidableEq

/-- Size of `new Set(l)`: the number of distinct elements of `l`. -/
def distinctCount (l : List String) : ℕ := l.dedup.length

/-- JavaScript Math.round on the nonnegative values arising here:
round half up. -/
def jsRound (q : ℚ) : ℤ := ⌊q + 1/2⌋

/-- Rounding to one decimal place: the JavaScript idiom
Math.round(x * 10) / 10, and also the SQL ROUND(x, 1) (round half away from
zero, which agrees with half-up on the nonnegative values arising here). -/
def round1 (q : ℚ) : ℚ := (jsRound (q * 10) : ℚ) / 10

/-- Percentage used by the per-domain client aggregations
(src/lib/metrics.ts lines 324, 368, 412, 456):
totalVisitors > 0 ? Math.round((v / totalVisitors) * 100) : 0. -/
def pctForDomain (v t : ℕ) : ℚ := if 0 < t then (jsRound ((v * 100 : ℚ) / t) : ℚ) else 0

/-- Insert into a list sorted descending by `f`, before every element of
equal or smaller measure: since the tail holds only elements that originally
followed the inserted one, this is the placement a stable sort produces. -/
def insertDesc (f : α → ℕ) (x : α) : List α → List α
  | [] => [x]
  | y :: l => if f y ≤ f x then x :: y :: l else y :: insertDesc f x l

/-- Stable sort, descending by `f`: the result of the JavaScript stable
Array.prototype.sort with comparator (a, b) => f(b) - f(a). -/
def sortDesc (f : α → ℕ) : List α → List α
  | [] => []
  | x :: l => insertDesc f x (sortDesc f l)

/-- First element of each `key`-class, in first-occurrence order: the
key/value insertion-order semantics of a JavaScript object or Map built by
scanning the rows. -/
def firstsBy (key : α → String) : List α → List α
  | [] => []
  | x :: l => x :: (firstsBy key l).filter (fun y => key y != key x)

/-- JavaScript `o || d` on a nullable string: `null` and the empty string are
falsy and give the default. -/
def jsOrElse (o : Option String) (d : String) : String :=
  match o with
  | none => d
  | some s => if s = "" then d else s

/-- Bot filtering of src/lib/metrics.ts lines 299-301:
includeBots ? rawData : rawData.filter(item => item.browser_normalized !== 'Bot'). -/
def botFilter (includeBots : Bool) (rows : List PageView) : List PageView :=
  if includeBots then rows else rows.filter (fun r => r.browser != some "Bot")

/-- Shared shape of getBrowserStatsForDomain / getOSStatsForDomain /
getDeviceStatsForDomain / getCountryStatsForDomain
(src/lib/metrics.ts lines 286-460): filter bots, partition by the dimension
key in first-occurrence order, count views (rows) and visitors (distinct ips),
divide by the distinct-ip count of the whole filtered set, round to the
nearest integer, sort descending by visitors. -/
def statOfForDomain (key : PageView → String) (filtered : List PageView)
    (r0 : PageView) : AggStat :=
  let part := filtered.filter (fun r => key r == key r0)
  ⟨key r0, part.length, distinctCount (part.map (·.ip)),
    pctForDomain (distinctCount (part.map (·.ip))) (distinctCount (filtered.map (·.ip)))⟩

/-- The aggregation body shared by the four ForDomain functions. -/
def aggregateForDomain (key : PageView → String) (includeBots : Bool)
    (rows : List PageView) : List AggStat :=
  let filtered := botFilter includeBots rows
  if filtered.isEmpty then [] else
    sortDesc (·.visitors) ((firstsBy key filtered).map (statOfForDomain key filtered))

/-- Dimension key of src/lib/metrics.ts line 308:
item.browser_normalized === 'Bot' ? 'Bot' : (item.browser_normalized || 'Unknown'). -/
def browserKeyForDomain (r : PageView) : String :=
  if r.browser == some "Bot" then "Bot" else jsOrElse r.browser "Unknown"

/-- Dimension key of src/lib/metrics.ts line 352:
item.browser_normalized === 'Bot' ? 'Bot' : (item.os_normalized || 'Unknown'). -/
def osKeyForDomain (r : PageView) : String :=
  if r.browser == some "Bot" then "Bot" else jsOrElse r.os "Unknown"

/-- Dimension key of src/lib/metrics.ts line 396:
item.browser_normalized === 'Bot' ? 'Bot' : (item.device_normalized || 'Unknown'). -/
def deviceKeyForDomain (r : PageView) : String :=
  if r.browser == some "Bot" then "Bot" else jsOrElse r.device "Unknown"

/-- Dimension key of src/lib/metrics.ts line 440: item.country || 'Unknown'. -/
def countryKeyForDomain (r : PageView) : String := jsOrElse r.country "Unknown"

/-- getBrowserStatsForDomain (src/lib/metrics.ts lines 286-328); the rows
argument is the result of the domain/date query. -/
def getBrowserStatsForDomain (includeBots : Bool) (rows : List PageView) : List AggStat :=
  aggregateForDomain browserKeyForDomain includeBots rows

/-- getOSStatsForDomain (src/lib/metrics.ts lines 331-372). -/
def getOSStatsForDomain (includeBots : Bool) (rows : List PageView) : List AggStat :=
  aggregateForDomain osKeyForDomain includeBots rows

/-- getDeviceStatsForDomain (src/lib/metrics.ts lines 375-416). -/
def getDeviceStatsForDomain (includeBots : Bool) (rows : List PageView) : List AggStat :=
  aggregateForDomain deviceKeyForDomain includeBots rows

/-- getCountryStatsForDomain (src/lib/metrics.ts lines 419-460). -/
def getCountryStatsForDomain (includeBots : Bool) (rows : List PageView) : List AggStat :=
  aggregateForDomain countryKeyForDomain includeBots rows

/-- getBrowserStats (src/lib/metrics.ts lines 144-177).  The query carries
.not('browser_normalized', 'is', null), so rows with a null browser are
excluded before any counting; the key is the browser value itself; the
percentage divides views by total views and keeps one decimal;
sorting is descending by views. -/
def siteBrowserStatOf (data : List PageView) (r0 : PageView) : AggStat :=
  let part := data.filter (fun r => r.browser.getD "" == r0.browser.getD "")
  ⟨r0.browser.getD "", part.length, distinctCount (part.map (·.ip)),
    round1 ((part.length * 100 : ℚ) / data.length)⟩

/-- The aggregation body of getBrowserStats. -/
def getBrowserStats (rows : List PageView) : List AggStat :=
  let data := rows.filter (fun r => r.browser.isSome)
  if data.isEmpty then [] else
    sortDesc (·.views) ((firstsBy (fun r => r.browser.getD "") data).map
      (siteBrowserStatOf data))

/-- One group of a SQL GROUP BY dimension query:
COUNT(*) views and COUNT(DISTINCT ip) visitors. -/
structure SqlCount where
  key : String
  views : ℕ
  visitors : ℕ
deriving DecidableEq

/-- The grouped counts of one dimension section of get_dashboard_data.sql
(for the browser section, lines 158-169): group the filtered rows by the
dimension key, count rows and distinct ips per group.  SQL does not fix the
order in which GROUP BY emits groups; first-occurrence order is used here. -/
def sqlCounts (key : PageView → String) (rows : List PageView) : List SqlCount :=
  (firstsBy key rows).map (fun r0 =>
    ⟨key r0, (rows.filter (fun r => key r == key r0)).length,
      distinctCount ((rows.filter (fun r => key r == key r0)).map (·.ip))⟩)

/-- One dimension section of get_dashboard_data.sql (lines 38-69 for domains,
158-189 for browsers, and the analogous os/device/country sections): group,
drop groups below min_views (HAVING COUNT(*) >= min_views), let total be
SUM(visitors) over the surviving groups, attach
ROUND(visitors / NULLIF(total, 0) * 100, 1), order by views descending and
keep max_results_per_section rows.  The NULLIF branch (total = 0) is
unreachable because every surviving group counts at least one row; it is
rendered as percentage 0 here. -/
def sqlSurv (key : PageView → String) (minViews : ℕ) (rows : List PageView) : List SqlCount :=
  (sqlCounts key rows).filter (fun c => minViews ≤ c.views)

/-- SUM(visitors) over the surviving groups: the total_visitors CTE
(get_dashboard_data.sql lines 170-175 for the browser section). -/
def sqlTotal (key : PageView → String) (minViews : ℕ) (rows : List PageView) : ℕ :=
  ((sqlSurv key minViews rows).map (·.visitors)).sum

/-- ROUND(vis / NULLIF(total, 0) * 100, 1); the total = 0 branch yields NULL
in SQL and is unreachable below. -/
def sqlPct (total vis : ℕ) : ℚ :=
  if total = 0 then 0 else round1 ((vis * 100 : ℚ) / total)

def sqlAggregate (key : PageView → String) (minViews maxResults : ℕ)
    (rows : List PageView) : List AggStat :=
  ((sortDesc (·.views) (sqlSurv key minViews rows)).take maxResults).map (fun c =>
    ⟨c.key, c.views, c.visitors, sqlPct (sqlTotal key minViews rows) c.visitors⟩)

/-- Dimension key of the browser section (get_dashboard_data.sql line 160):
COALESCE(browser_normalized, 'Other'). -/
def sqlBrowserKey (r : PageView) : String :=
  match r.browser with
  | none => "Other"
  | some b => b

/-- Dimension key of the os section (get_dashboard_data.sql line 210). -/
def sqlOsKey (r : PageView) : String :=
  match r.os with
  | none => "Other"
  | some b => b

/-- Dimension key of the device section (get_dashboard_data.sql line 260). -/
def sqlDeviceKey (r : PageView) : String :=
  match r.device with
  | none => "Other"
  | some b => b

/-- SQL LIKE matching over explicit character lists, with the default escape
character backslash: percent matches any sequence, underscore any single
character, a backslash escapes the next pattern character.  A pattern ending
in a lone backslash is an error in PostgreSQL; it is rendered as a non-match
here and never arises below. -/
def likeMatch : List Char → List Char → Bool
  | [], s => s.isEmpty
  | c :: p, s =>
    if c = '%' then s.tails.any (fun t => likeMatch p t)
    else if c = '\\' then
      match p, s with
      | c2 :: p2, c3 :: s2 => c2 == c3 && likeMatch p2 s2
      | _, _ => false
    else
      match s with
      | [] => false
      | c2 :: s2 => (c == '_' || c == c2) && likeMatch p s2

/-- The self-referral condition of get_dashboard_data.sql lines 91-93:
referrer_normalized = domain_normalized
OR referrer_normalized LIKE '%.' || domain_normalized
OR domain_normalized LIKE '%.' || referrer_normalized. -/
def selfReferralLike (ref dom : String) : Bool :=
  ref == dom
    || likeMatch ('%' :: '.' :: dom.data) ref.data
    || likeMatch ('%' :: '.' :: ref.data) dom.data

/-- The per-row condition of the referrer section WHERE clause
(get_dashboard_data.sql lines 82-95): referrer_normalized IS NOT NULL AND
(NOT exclude_self_referrals OR NOT (self-referral condition)). -/
def refKeepRow (excludeSelfReferrals : Bool) (r : PageView) : Bool :=
  match r.referrer with
  | none => false
  | some ref => !excludeSelfReferrals || !(selfReferralLike ref r.domain)

/-- The filtered_views CTE of the referrer section
(get_dashboard_data.sql lines 72-96), restricted to the referrer-specific
conditions; the date, domain-list and contract-exclusion filters are common
to all sections and are represented by the input row list. -/
def referrerFilteredViews (excludeSelfReferrals : Bool)
    (rows : List PageView) : List PageView :=
  rows.filter (refKeepRow excludeSelfReferrals)

/-- Whether the deployed regex matches a string.  The SQL pattern literal of
get_dashboard_data.sql lines 102 and 113 is written with two backslashes,
and under the PostgreSQL default standard_conforming_strings = on a quoted
literal keeps both, so the regular expression engine receives
caret .*? ( [^.]+ backslash backslash . [^.]+ ) dollar and reads the doubled
backslash as a demand for one literal backslash character, with the
following dot standing for any character.  The anchored pattern therefore
matches exactly the strings that somewhere hold a non-dot character, then a
literal backslash, then any one character, then a nonempty dot-free tail
running to the end of the string. -/
def areBackslashMatch (s : List Char) : Bool :=
  s.tails.any (fun t =>
    match t with
    | a :: b :: _ :: v =>
      (a != '.') && (b == '\\') && !v.isEmpty && v.all (fun x => x != '.')
    | _ => false)

/-- The referrer transform of get_dashboard_data.sql lines 102 and 113 as
PostgreSQL executes it (see areBackslashMatch for the pattern).  When the
pattern matches, the whole string (the match is anchored at both ends) is
replaced by the processed replacement text: the replacement literal, also
written with a doubled backslash, denotes a literal backslash followed by
the plain character 1 — not a group reference — so the result is the
two-character string backslash one.  Every other string, in particular every
referrer without a backslash, is returned unchanged: the doubled backslash
is an escaping slip and the intended collapse to the rightmost two labels
never happens (see the C6 theorem). -/
def extractRootDomain (r : String) : String :=
  if areBackslashMatch r.data then "\\1" else r

/-- The grouping key of the referrer_counts CTE
(get_dashboard_data.sql lines 99-105): the extracted root domain when
group_referrers_by_domain, the referrer itself otherwise.  The referrer is
non-null for every row of filtered_views. -/
def referrerKey (groupByDomain : Bool) (r : PageView) : String :=
  let ref := match r.referrer with
             | none => ""
             | some s => s
  if groupByDomain then extractRootDomain ref else ref

/-- The referrer section of get_dashboard_data.sql (lines 71-139). -/
def sqlReferrerAggregate (excludeSelfReferrals groupByDomain : Bool)
    (minViews maxResults : ℕ) (rows : List PageView) : List AggStat :=
  sqlAggregate (referrerKey groupByDomain) minViews maxResults
    (referrerFilteredViews excludeSelfReferrals rows)

/-- The referrerPage of one row in src/app/api/stats/referrer/route.ts
line 43: item.referrer || 'Direct / None' (null and empty are falsy). -/
def rowReferrerPage (r : PageView) : String := jsOrElse r.rawReferrer "Direct / None"

/-- The targetPage of one row (route.ts line 44): domain + path. -/
def rowTargetPage (r : PageView) : String := r.domain ++ r.path

/-- The Map key of one row (route.ts line 45):
referrerPage + '|' + targetPage. -/
def rowPairKey (r : PageView) : String :=
  rowReferrerPage r ++ "|" ++ rowTargetPage r

/-- The aggregation of src/app/api/stats/referrer/route.ts lines 34-81: rows
are the result of the substring referrer query; group by the concatenated
pair key, remembering the referrerPage and targetPage of the first row of
each group; views counts the rows of the group, visitors its distinct ips;
percentage = Math.round(views / totalViews * 1000) / 10 with totalViews the
number of all fetched rows; sort descending by views. -/
def pairStatOf (rows : List PageView) (r0 : PageView) : PairStat :=
  let part := rows.filter (fun r => rowPairKey r == rowPairKey r0)
  ⟨rowReferrerPage r0, rowTargetPage r0, part.length, distinctCount (part.map (·.ip)),
    round1 ((part.length * 100 : ℚ) / rows.length)⟩

/-- The aggregation body of the referrer pair route. -/
def statsReferrerGET (rows : List PageView) : List PairStat :=
  if rows.isEmpty then [] else
    sortDesc (·.views) ((firstsBy rowPairKey rows).map (pairStatOf rows))

/-- The includeBots parsing of the per-domain stats route
(src/unnamed/part_001 line 17): searchParams.get('includeBots') === 'true',
where get returns null when the parameter is absent. -/
def parseIncludeBots (v : Option String) : Bool := v == some "true"

/-- The type=all data bundle of the per-domain stats route
(src/unnamed/part_001 lines 27-45), restricted to its aggregated sections:
all of them receive the includeBots boolean parsed from the query string. -/
def domainRouteBundle (includeBotsParam : Option String) (rows : List PageView) :
    List AggStat × List AggStat × List AggStat × List AggStat :=
  let ib := parseIncludeBots includeBotsParam
  (getBrowserStatsForDomain ib rows, getOSStatsForDomain ib rows,
    getDeviceStatsForDomain ib rows, getCountryStatsForDomain ib rows)

/-- Dot-separated components of a character list, possibly empty components
included, as splitting on a dot produces them. -/
def splitLabels : List Char → List (List Char)
  | [] => [[]]
  | c :: cs =>
    if c = '.' then [] :: splitLabels cs
    else
      match splitLabels cs with
      | [] => [[c]]
      | l :: ls => (c :: l) :: ls

/-- Claim-side reading of C6, for comparison with `extractRootDomain`: the
rightmost two dot-separated labels of the referrer, joined by a dot; a
referrer with fewer than two labels is left as it is. -/
def specRightmostTwoLabels (r : String) : String :=
  match (splitLabels r.data).reverse with
  | l2 :: l1 :: _ => String.mk (l1 ++ '.' :: l2)
  | _ => r

/-- Absence of the SQL LIKE metacharacters (and the escape character) from a
string, the regime in which a LIKE pattern is a plain substring test. -/
@[reducible] def noLikeMeta (s : String) : Prop :=
  ∀ c ∈ s.data, c ≠ '%' ∧ c ≠ '_' ∧ c ≠ '\\'

/-- Claim-side reading of C5, for comparison with `selfReferralLike`:
referrer == domain, or referrer ends with dot-domain, or domain ends with
dot-referrer, as plain string suffix tests. -/
def specSelfReferral (ref dom : String) : Bool :=
  ref == dom
    || ('.' :: dom.data).isSuffixOf ref.data
    || ('.' :: ref.data).isSuffixOf dom.data

lemma jsRound_nonneg (q : ℚ) (h : 0 ≤ q) : 0 ≤ jsRound q := by
  rw [jsRound]
  exact Int.le_floor.mpr (by push_cast; linarith)

lemma jsRound_le (q : ℚ) (n : ℕ) (h : q ≤ n) : jsRound q ≤ n := by
  rw [jsRound]
  by_contra hc
  push_neg at hc
  have h2 : (((n : ℤ) + 1 : ℤ) : ℚ) ≤ q + 1/2 := Int.le_floor.mp hc
  push_cast at h2
  linarith

lemma round1_nonneg (q : ℚ) (h : 0 ≤ q) : 0 ≤ round1 q := by
  rw [round1]
  have h1 := jsRound_nonneg (q * 10) (by linarith)
  have h2 : (0 : ℚ) ≤ (jsRound (q * 10) : ℚ) := by exact_mod_cast h1
  linarith

lemma round1_le_100 (q : ℚ) (h : q ≤ 100) : round1 q ≤ 100 := by
  rw [round1]
  have h1 : jsRound (q * 10) ≤ (1000 : ℕ) := jsRound_le _ 1000 (by push_cast; linarith)
  have h2 : (jsRound (q * 10) : ℚ) ≤ 1000 := by exact_mod_cast h1
  linarith

lemma pctForDomain_nonneg (v t : ℕ) : 0 ≤ pctForDomain v t := by
  rw [pctForDomain]
  split
  · exact_mod_cast jsRound_nonneg _ (by positivity)
  · exact le_refl 0

lemma pctForDomain_le_100 (v t : ℕ) (h : v ≤ t) : pctForDomain v t ≤ 100 := by
  rw [pctForDomain]
  split
  · rename_i ht
    have htq : (0 : ℚ) < t := by exact_mod_cast ht
    have hq : ((v : ℚ) * 100) / t ≤ 100 := by
      rw [div_le_iff₀ htq]
      have : (v : ℚ) ≤ t := by exact_mod_cast h
      linarith
    exact_mod_cast jsRound_le _ 100 hq
  · norm_num

lemma pctForDomain_zero (v : ℕ) : pctForDomain v 0 = 0 := by
  rw [pctForDomain]
  norm_num

lemma distinctCount_mono {l l' : List String} (h : l ⊆ l') :
    distinctCount l ≤ distinctCount l' := by
  have h1 : l.toFinset ⊆ l'.toFinset := by
    intro a ha
    simp only [List.mem_toFinset] at *
    exact h ha
  have h2 := Finset.card_le_card h1
  rwa [List.card_toFinset, List.card_toFinset] at h2

lemma distinctCount_pos {l : List String} (h : l ≠ []) : 0 < distinctCount l := by
  rw [distinctCount, List.length_pos]
  simpa [List.dedup_eq_nil] using h

lemma insertDesc_perm (f : α → ℕ) (x : α) (l : List α) :
    (insertDesc f x l).Perm (x :: l) := by
  induction l with
  | nil => exact List.Perm.refl _
  | cons y t ih =>
    rw [insertDesc]
    split
    · exact List.Perm.refl _
    · exact (List.Perm.cons y ih).trans (List.Perm.swap x y t)

lemma sortDesc_perm (f : α → ℕ) (l : List α) : (sortDesc f l).Perm l := by
  induction l with
  | nil => exact List.Perm.refl _
  | cons x t ih =>
    rw [sortDesc]
    exact (insertDesc_perm f x _).trans (List.Perm.cons x ih)

lemma mem_sortDesc {f : α → ℕ} {l : List α} {a : α} : a ∈ sortDesc f l ↔ a ∈ l :=
  (sortDesc_perm f l).mem_iff

lemma sorted_insertDesc (f : α → ℕ) (x : α) (l : List α)
    (h : l.Pairwise (fun a b => f b ≤ f a)) :
    (insertDesc f x l).Pairwise (fun a b => f b ≤ f a) := by
  induction l with
  | nil => simp [insertDesc]
  | cons y t ih =>
    rcases List.pairwise_cons.mp h with ⟨hy, ht⟩
    rw [insertDesc]
    split
    · rename_i hle
      refine List.pairwise_cons.mpr ⟨?_, h⟩
      intro b hb
      rcases List.mem_cons.mp hb with rfl | hb
      · exact hle
      · exact le_trans (hy b hb) hle
    · rename_i hnlt
      refine List.pairwise_cons.mpr ⟨?_, ih ht⟩
      intro b hb
      rcases List.mem_cons.mp ((insertDesc_perm f x t).mem_iff.mp hb) with rfl | hb
      · omega
      · exact hy b hb

lemma sortDesc_sorted (f : α → ℕ) (l : List α) :
    (sortDesc f l).Pairwise (fun a b => f b ≤ f a) := by
  induction l with
  | nil => simp [sortDesc]
  | cons x t ih =>
    rw [sortDesc]
    exact sorted_insertDesc f x _ ih

lemma mem_of_mem_firstsBy {key : α → String} :
    ∀ {l : List α} {y : α}, y ∈ firstsBy key l → y ∈ l := by
  intro l
  induction l with
  | nil => intro y hy; simp [firstsBy] at hy
  | cons x t ih =>
    intro y hy
    rw [firstsBy] at hy
    rcases List.mem_cons.mp hy with rfl | hy
    · exact List.mem_cons_self _ _
    · exact List.mem_cons_of_mem _ (ih (List.mem_of_mem_filter hy))

lemma exists_firstsBy {key : α → String} :
    ∀ {l : List α} {x : α}, x ∈ l → ∃ y ∈ firstsBy key l, key y = key x := by
  intro l
  induction l with
  | nil => intro x hx; simp at hx
  | cons a t ih =>
    intro x hx
    rw [firstsBy]
    rcases List.mem_cons.mp hx with rfl | hx
    · exact ⟨_, List.mem_cons_self _ _, rfl⟩
    · rcases ih hx with ⟨y, hy, hk⟩
      by_cases hke : key y = key a
      · exact ⟨a, List.mem_cons_self _ _, by rw [← hke, hk]⟩
      · refine ⟨y, List.mem_cons_of_mem _ (List.mem_filter.mpr ⟨hy, ?_⟩), hk⟩
        simpa [bne_iff_ne] using hke

lemma firstsBy_pairwise {key : α → String} (l : List α) :
    (firstsBy key l).Pairwise (fun a b => key a ≠ key b) := by
  induction l with
  | nil => simp [firstsBy]
  | cons a t ih =>
    rw [firstsBy]
    refine List.pairwise_cons.mpr ⟨?_, ih.filter _⟩
    intro b hb
    have h2 := (List.mem_filter.mp hb).2
    rw [bne_iff_ne] at h2
    exact fun he => h2 he.symm

lemma sum_map_filter_split (p : α → Bool) (g : α → ℕ) (l : List α) :
    ((l.filter p).map g).sum + ((l.filter (fun a => !(p a))).map g).sum = (l.map g).sum := by
  induction l with
  | nil => simp
  | cons a t ih =>
    cases hp : p a <;> simp [List.filter_cons, hp] <;> omega

lemma filter_key_eq_of_pairwise {key : α → String} :
    ∀ (F : List α) (c : String), F.Pairwise (fun a b => key a ≠ key b) →
      F.filter (fun y => key y == c) = [] ∨
        ∃ y0, F.filter (fun y => key y == c) = [y0] ∧ key y0 = c := by
  intro F
  induction F with
  | nil =>
    intro c _
    left
    rfl
  | cons a t ih =>
    intro c h
    rcases List.pairwise_cons.mp h with ⟨ha, ht⟩
    by_cases hc : key a = c
    · right
      refine ⟨a, ?_, hc⟩
      rw [List.filter_cons]
      have hcond : (key a == c) = true := by simp [beq_iff_eq, hc]
      rw [hcond]
      simp only [if_true]
      have hnil : t.filter (fun y => key y == c) = [] := by
        apply List.filter_eq_nil_iff.mpr
        intro y hy
        simp only [beq_iff_eq]
        intro he
        exact ha y hy (by rw [hc, he])
      rw [hnil]
    · rw [List.filter_cons]
      have hcond : (key a == c) = false := by simp [beq_iff_eq, hc]
      rw [hcond]
      simp only [Bool.false_eq_true, if_false]
      exact ih c ht

lemma sum_countP_firstsBy {key : α → String} (l : List α) :
    ((firstsBy key l).map (fun y => l.countP (fun x => key x == key y))).sum = l.length := by
  induction l with
  | nil => simp [firstsBy]
  | cons a t ih =>
    rw [firstsBy, List.map_cons, List.sum_cons]
    have hhead : (a :: t).countP (fun x => key x == key a)
        = t.countP (fun x => key x == key a) + 1 := by
      rw [List.countP_cons]
      simp
    have htail : ((firstsBy key t).filter (fun y => key y != key a)).map
          (fun y => (a :: t).countP (fun x => key x == key y))
        = ((firstsBy key t).filter (fun y => key y != key a)).map
          (fun y => t.countP (fun x => key x == key y)) := by
      apply List.map_congr_left
      intro y hy
      have hne : key y ≠ key a := by
        have h2 := (List.mem_filter.mp hy).2
        rwa [bne_iff_ne] at h2
      rw [List.countP_cons]
      have hcond : (key a == key y) = false := by
        simp only [beq_eq_false_iff_ne, ne_eq]
        exact fun he => hne he.symm
      rw [hcond]
      simp
    rw [htail]
    have hsplit := sum_map_filter_split (fun y => key y != key a)
        (fun y => t.countP (fun x => key x == key y)) (firstsBy key t)
    have hcompl : (firstsBy key t).filter (fun y => !(key y != key a))
        = (firstsBy key t).filter (fun y => key y == key a) := by
      apply List.filter_congr
      intro y _
      simp [bne]
    rw [hcompl, ih] at hsplit
    rcases filter_key_eq_of_pairwise (firstsBy key t) (key a) (firstsBy_pairwise t)
      with hnil | ⟨y0, hy0, hk0⟩
    · have hcnt : t.countP (fun x => key x == key a) = 0 := by
        apply List.countP_eq_zero.mpr
        intro x hx
        simp only [beq_iff_eq]
        intro he
        rcases @exists_firstsBy _ key _ _ hx with ⟨y, hy, hk⟩
        have hmem : y ∈ (firstsBy key t).filter (fun y => key y == key a) := by
          refine List.mem_filter.mpr ⟨hy, ?_⟩
          simp [beq_iff_eq, hk, he]
        rw [hnil] at hmem
        simp at hmem
      rw [hnil] at hsplit
      simp only [List.map_nil, List.sum_nil, add_zero] at hsplit
      rw [hhead, hcnt, List.length_cons]
      omega
    · rw [hy0] at hsplit
      simp only [List.map_cons, List.map_nil, List.sum_cons, List.sum_nil, add_zero] at hsplit
      have hcnt : t.countP (fun x => key x == key y0) = t.countP (fun x => key x == key a) := by
        rw [hk0]
      rw [hcnt] at hsplit
      rw [hhead, List.length_cons]
      omega

lemma statOfForDomain_views (key : PageView → String) (filtered : List PageView)
    (r0 : PageView) :
    (statOfForDomain key filtered r0).views = filtered.countP (fun r => key r == key r0) :=
  (List.countP_eq_length_filter _ _).symm

lemma statOfForDomain_visitors_le (key : PageView → String) (filtered : List PageView)
    (r0 : PageView) :
    (statOfForDomain key filtered r0).visitors ≤ distinctCount (filtered.map (·.ip)) :=
  distinctCount_mono (List.map_subset _ (List.filter_subset' filtered))

lemma mem_aggregateForDomain {key : PageView → String} {ib : Bool} {rows : List PageView}
    {e : AggStat} :
    e ∈ aggregateForDomain key ib rows ↔
      botFilter ib rows ≠ [] ∧
        ∃ r0 ∈ firstsBy key (botFilter ib rows),
          e = statOfForDomain key (botFilter ib rows) r0 := by
  simp only [aggregateForDomain]
  by_cases he : (botFilter ib rows).isEmpty
  · rw [if_pos he]
    simp [List.isEmpty_iff.mp he, firstsBy]
  · rw [if_neg he]
    have hne : botFilter ib rows ≠ [] := by
      intro h
      rw [h] at he
      simp at he
    simp only [hne, ne_eq, not_false_eq_true, true_and]
    rw [mem_sortDesc, List.mem_map]
    constructor
    · rintro ⟨r0, h1, h2⟩
      exact ⟨r0, h1, h2.symm⟩
    · rintro ⟨r0, h1, h2⟩
      exact ⟨r0, h1, h2.symm⟩

lemma sum_views_aggregateForDomain (key : PageView → String) (ib : Bool)
    (rows : List PageView) :
    ((aggregateForDomain key ib rows).map (·.views)).sum = (botFilter ib rows).length := by
  simp only [aggregateForDomain]
  by_cases he : (botFilter ib rows).isEmpty
  · rw [if_pos he]
    simp [List.isEmpty_iff.mp he]
  · rw [if_neg he]
    have hperm := (sortDesc_perm (·.visitors)
      ((firstsBy key (botFilter ib rows)).map (statOfForDomain key (botFilter ib rows)))).map
        (fun e => e.views)
    rw [hperm.sum_eq, List.map_map]
    have hcongr : ((firstsBy key (botFilter ib rows)).map
          ((fun (e : AggStat) => e.views) ∘ statOfForDomain key (botFilter ib rows)))
        = (firstsBy key (botFilter ib rows)).map
            (fun y => (botFilter ib rows).countP (fun x => key x == key y)) := by
      apply List.map_congr_left
      intro y _
      exact statOfForDomain_views key _ y
    rw [hcongr, sum_countP_firstsBy]

lemma mem_sqlCounts {key : PageView → String} {rows : List PageView} {c : SqlCount} :
    c ∈ sqlCounts key rows ↔
      ∃ r0 ∈ firstsBy key rows,
        c = ⟨key r0, (rows.filter (fun r => key r == key r0)).length,
          distinctCount ((rows.filter (fun r => key r == key r0)).map (·.ip))⟩ := by
  simp only [sqlCounts, List.mem_map]
  constructor
  · rintro ⟨r0, h1, h2⟩
    exact ⟨r0, h1, h2.symm⟩
  · rintro ⟨r0, h1, h2⟩
    exact ⟨r0, h1, h2.symm⟩

lemma sqlCounts_views_pos {key : PageView → String} {rows : List PageView} {c : SqlCount}
    (hc : c ∈ sqlCounts key rows) : 0 < c.views := by
  rcases mem_sqlCounts.mp hc with ⟨r0, hr0, rfl⟩
  have hmem : r0 ∈ rows.filter (fun r => key r == key r0) :=
    List.mem_filter.mpr ⟨mem_of_mem_firstsBy hr0, by simp⟩
  exact List.length_pos.mpr (fun h => by rw [h] at hmem; simp at hmem)

lemma sqlCounts_visitors_pos {key : PageView → String} {rows : List PageView} {c : SqlCount}
    (hc : c ∈ sqlCounts key rows) : 0 < c.visitors := by
  rcases mem_sqlCounts.mp hc with ⟨r0, hr0, rfl⟩
  have hmem : r0 ∈ rows.filter (fun r => key r == key r0) :=
    List.mem_filter.mpr ⟨mem_of_mem_firstsBy hr0, by simp⟩
  apply distinctCount_pos
  intro h
  rw [List.map_eq_nil_iff] at h
  rw [h] at hmem
  simp at hmem

lemma mem_sqlAggregate {key : PageView → String} {mv mr : ℕ} {rows : List PageView}
    {e : AggStat} :
    e ∈ sqlAggregate key mv mr rows ↔
      ∃ c, c ∈ (sortDesc (·.views) (sqlSurv key mv rows)).take mr ∧
        e = ⟨c.key, c.views, c.visitors, sqlPct (sqlTotal key mv rows) c.visitors⟩ := by
  simp only [sqlAggregate, List.mem_map]
  constructor
  · rintro ⟨c, h1, h2⟩
    exact ⟨c, h1, h2.symm⟩
  · rintro ⟨c, h1, h2⟩
    exact ⟨c, h1, h2.symm⟩

lemma mem_surv_of_mem_sql {key : PageView → String} {mv mr : ℕ} {rows : List PageView}
    {c : SqlCount} (hc : c ∈ (sortDesc (·.views) (sqlSurv key mv rows)).take mr) :
    c ∈ sqlSurv key mv rows :=
  mem_sortDesc.mp (List.take_subset mr _ hc)

lemma visitors_le_sqlTotal {key : PageView → String} {mv : ℕ} {rows : List PageView}
    {c : SqlCount} (hc : c ∈ sqlSurv key mv rows) :
    c.visitors ≤ sqlTotal key mv rows :=
  List.single_le_sum (fun x _ => Nat.zero_le x) _ (List.mem_map_of_mem (·.visitors) hc)

lemma sqlTotal_pos {key : PageView → String} {mv : ℕ} {rows : List PageView}
    {c : SqlCount} (hc : c ∈ sqlSurv key mv rows) : 0 < sqlTotal key mv rows :=
  lt_of_lt_of_le (sqlCounts_visitors_pos (List.mem_of_mem_filter hc)) (visitors_le_sqlTotal hc)

lemma sqlPct_nonneg (total vis : ℕ) : 0 ≤ sqlPct total vis := by
  rw [sqlPct]
  split
  · exact le_refl 0
  · exact round1_nonneg _ (by positivity)

lemma sqlPct_le_100 {total vis : ℕ} (h : vis ≤ total) : sqlPct total vis ≤ 100 := by
  rw [sqlPct]
  split
  · norm_num
  · rename_i ht
    apply round1_le_100
    have htq : (0 : ℚ) < total := by
      have : 0 < total := Nat.pos_of_ne_zero ht
      exact_mod_cast this
    rw [div_le_iff₀ htq]
    have : (vis : ℚ) ≤ total := by exact_mod_cast h
    linarith

lemma likeMatch_cons (c : Char) (p s : List Char) :
    likeMatch (c :: p) s =
      if c = '%' then s.tails.any (fun t => likeMatch p t)
      else if c = '\\' then
        match p, s with
        | c2 :: p2, c3 :: s2 => c2 == c3 && likeMatch p2 s2
        | _, _ => false
      else
        match s with
        | [] => false
        | c2 :: s2 => (c == '_' || c == c2) && likeMatch p s2 := by
  rw [likeMatch.eq_def]

lemma likeMatch_pct (p s : List Char) :
    likeMatch ('%' :: p) s = s.tails.any (fun t => likeMatch p t) := by
  rw [likeMatch_cons]
  rw [if_pos rfl]

lemma likeMatch_plain (c : Char) (p s : List Char) (hc1 : c ≠ '%') (hc3 : c ≠ '\\') :
    likeMatch (c :: p) s =
      match s with
      | [] => false
      | c2 :: s2 => (c == '_' || c == c2) && likeMatch p s2 := by
  rw [likeMatch_cons]
  rw [if_neg hc1, if_neg hc3]

lemma likeMatch_literal (p : List Char) (h : ∀ c ∈ p, c ≠ '%' ∧ c ≠ '_' ∧ c ≠ '\\') :
    ∀ s, likeMatch p s = (p == s) := by
  induction p with
  | nil =>
    intro s
    cases s <;> rfl
  | cons c p ih =>
    intro s
    obtain ⟨hc1, hc2, hc3⟩ := h c (List.mem_cons_self _ _)
    rw [likeMatch_plain c p s hc1 hc3]
    cases s with
    | nil => rfl
    | cons c2 s2 =>
      have hbe : (c == '_') = false := by simp [hc2]
      show ((c == '_' || c == c2) && likeMatch p s2) = (c == c2 && (p == s2))
      rw [hbe, Bool.false_or, ih (fun x hx => h x (List.mem_cons_of_mem _ hx)) s2]

lemma likeMatch_pct_literal (p : List Char) (h : ∀ c ∈ p, c ≠ '%' ∧ c ≠ '_' ∧ c ≠ '\\')
    (s : List Char) : likeMatch ('%' :: p) s = true ↔ p <:+ s := by
  rw [likeMatch_pct, List.any_eq_true]
  constructor
  · rintro ⟨t, ht, hm⟩
    rw [likeMatch_literal p h t] at hm
    rw [show p = t from eq_of_beq hm]
    exact (List.mem_tails _ _).mp ht
  · intro hsuf
    refine ⟨p, (List.mem_tails _ _).mpr hsuf, ?_⟩
    rw [likeMatch_literal p h p]
    exact beq_self_eq_true p

lemma mem_getBrowserStats {rows : List PageView} {e : AggStat} :
    e ∈ getBrowserStats rows ↔
      rows.filter (fun r => r.browser.isSome) ≠ [] ∧
        ∃ r0 ∈ firstsBy (fun r => r.browser.getD "") (rows.filter (fun r => r.browser.isSome)),
          e = siteBrowserStatOf (rows.filter (fun r => r.browser.isSome)) r0 := by
  simp only [getBrowserStats]
  by_cases he : (rows.filter (fun r => r.browser.isSome)).isEmpty
  · rw [if_pos he]
    simp [List.isEmpty_iff.mp he, firstsBy]
  · rw [if_neg he]
    have hne : rows.filter (fun r => r.browser.isSome) ≠ [] := by
      intro h
      rw [h] at he
      simp at he
    simp only [hne, ne_eq, not_false_eq_true, true_and]
    rw [mem_sortDesc, List.mem_map]
    constructor
    · rintro ⟨r0, h1, h2⟩
      exact ⟨r0, h1, h2.symm⟩
    · rintro ⟨r0, h1, h2⟩
      exact ⟨r0, h1, h2.symm⟩

lemma mem_statsReferrerGET {rows : List PageView} {e : PairStat} :
    e ∈ statsReferrerGET rows ↔
      rows ≠ [] ∧ ∃ r0 ∈ firstsBy rowPairKey rows, e = pairStatOf rows r0 := by
  simp only [statsReferrerGET]
  by_cases he : rows.isEmpty
  · rw [if_pos he]
    simp [List.isEmpty_iff.mp he, firstsBy]
  · rw [if_neg he]
    have hne : rows ≠ [] := by
      intro h
      rw [h] at he
      simp at he
    simp only [hne, ne_eq, not_false_eq_true, true_and]
    rw [mem_sortDesc, List.mem_map]
    constructor
    · rintro ⟨r0, h1, h2⟩
      exact ⟨r0, h1, h2.symm⟩
    · rintro ⟨r0, h1, h2⟩
      exact ⟨r0, h1, h2.symm⟩

lemma firstsBy_all_eq {key : α → String} (x : α) (t : List α)
    (h : ∀ y ∈ t, key y = key x) : firstsBy key (x :: t) = [x] := by
  rw [firstsBy]
  have hnil : (firstsBy key t).filter (fun y => key y != key x) = [] := by
    apply List.filter_eq_nil_iff.mpr
    intro y hy
    simp only [bne_iff_ne, ne_eq, not_not]
    exact h y (mem_of_mem_firstsBy hy)
  rw [hnil]

lemma jsRound_hundred : jsRound 100 = 100 := by
  norm_num [jsRound]

lemma round1_hundred : round1 100 = 100 := by
  norm_num [round1, jsRound]

lemma pctForDomain_self {d : ℕ} (hd : 0 < d) : pctForDomain d d = 100 := by
  rw [pctForDomain, if_pos hd]
  have hdq : (d : ℚ) ≠ 0 := by
    have : (0 : ℚ) < d := by exact_mod_cast hd
    linarith
  have hq : ((d : ℚ) * 100) / d = 100 := by
    field_simp
  rw [hq, jsRound_hundred]
  norm_num

lemma sqlPct_self {d : ℕ} (hd : 0 < d) : sqlPct d d = 100 := by
  rw [sqlPct, if_neg (Nat.pos_iff_ne_zero.mp hd)]
  have hdq : (d : ℚ) ≠ 0 := by
    have : (0 : ℚ) < d := by exact_mod_cast hd
    linarith
  have hq : ((d : ℚ) * 100) / d = 100 := by
    field_simp
  rw [hq, round1_hundred]

/-- C4: with includeBots = false every row whose browserNormalized is the
Bot sentinel is discarded before any views, visitors or totals are counted:
for every dimension key and every row set, the per-domain aggregation output
equals the output on the row set with the Bot rows removed up front; and on
the two-row scenario of the claim the browser bundle is exactly one Chrome
entry with views 1, visitors 1, percentage 100. -/
theorem c4_bot_filter_scenario :
    (∀ (key : PageView → String) (rows : List PageView),
        aggregateForDomain key false rows
          = aggregateForDomain key false
              (rows.filter (fun r => r.browser != some "Bot")))
    ∧ getBrowserStatsForDomain false
        [⟨"a.com", "", none, none, some "Bot", none, none, none, "1"⟩,
         ⟨"a.com", "", none, none, some "Chrome", none, none, none, "2"⟩]
      = [⟨"Chrome", 1, 1, 100⟩] := by
  constructor
  · intro key rows
    have h : botFilter false (rows.filter (fun r => r.browser != some "Bot"))
        = botFilter false rows := by
      simp only [botFilter, Bool.false_eq_true, if_false]
      rw [List.filter_filter]
      apply List.filter_congr
      intro r _
      simp
    simp only [aggregateForDomain, h]
  · simp [getBrowserStatsForDomain, aggregateForDomain, statOfForDomain, botFilter, firstsBy,
      sortDesc, insertDesc, distinctCount, browserKeyForDomain, jsOrElse, pctForDomain]
    norm_num [jsRound]

/-- C2: every computed stat of the per-domain client aggregations and of the
stored-procedure sections satisfies 0 <= percentage <= 100; the per-domain
percentage computation yields 0 when its divisor totalVisitors is 0 and never
raises an error; and the SQL divisor is positive whenever a row is output, so
its NULLIF branch never fires. -/
theorem c2_percentage_bounds :
    (∀ (key : PageView → String) (ib : Bool) (rows : List PageView) (e : AggStat),
        e ∈ aggregateForDomain key ib rows → 0 ≤ e.percentage ∧ e.percentage ≤ 100)
    ∧ (∀ (key : PageView → String) (mv mr : ℕ) (rows : List PageView) (e : AggStat),
        e ∈ sqlAggregate key mv mr rows → 0 ≤ e.percentage ∧ e.percentage ≤ 100)
    ∧ (∀ v : ℕ, pctForDomain v 0 = 0)
    ∧ (∀ (key : PageView → String) (mv mr : ℕ) (rows : List PageView) (e : AggStat),
        e ∈ sqlAggregate key mv mr rows → 0 < sqlTotal key mv rows) := by
  refine ⟨?_, ?_, pctForDomain_zero, ?_⟩
  · intro key ib rows e he
    rcases mem_aggregateForDomain.mp he with ⟨hne, r0, hr0, rfl⟩
    exact ⟨pctForDomain_nonneg _ _, pctForDomain_le_100 _ _ (statOfForDomain_visitors_le key _ r0)⟩
  · intro key mv mr rows e he
    rcases mem_sqlAggregate.mp he with ⟨c, hc, rfl⟩
    exact ⟨sqlPct_nonneg _ _, sqlPct_le_100 (visitors_le_sqlTotal (mem_surv_of_mem_sql hc))⟩
  · intro key mv mr rows e he
    rcases mem_sqlAggregate.mp he with ⟨c, hc, rfl⟩
    exact sqlTotal_pos (mem_surv_of_mem_sql hc)

/-- Witness for C2 at a one-row input. -/
theorem c2_percentage_bounds_witness :
    ((⟨"Chrome", 1, 1, 100⟩ : AggStat) ∈
        aggregateForDomain browserKeyForDomain true
          [⟨"a.com", "", none, none, some "Chrome", none, none, none, "1"⟩])
    ∧ (0 ≤ (⟨"Chrome", 1, 1, 100⟩ : AggStat).percentage
        ∧ (⟨"Chrome", 1, 1, 100⟩ : AggStat).percentage ≤ 100)
    ∧ ((⟨"Chrome", 1, 1, 100⟩ : AggStat) ∈
        sqlAggregate sqlBrowserKey 1 50
          [⟨"a.com", "", none, none, some "Chrome", none, none, none, "1"⟩])
    ∧ 0 < sqlTotal sqlBrowserKey 1
        [⟨"a.com", "", none, none, some "Chrome", none, none, none, "1"⟩] := by
  have hout1 : aggregateForDomain browserKeyForDomain true
      [⟨"a.com", "", none, none, some "Chrome", none, none, none, "1"⟩]
      = [⟨"Chrome", 1, 1, 100⟩] := by
    simp [aggregateForDomain, statOfForDomain, botFilter, firstsBy, sortDesc, insertDesc,
      distinctCount, browserKeyForDomain, jsOrElse, pctForDomain]
    norm_num [jsRound]
  have hout2 : sqlAggregate sqlBrowserKey 1 50
      [⟨"a.com", "", none, none, some "Chrome", none, none, none, "1"⟩]
      = [⟨"Chrome", 1, 1, 100⟩] := by
    simp [sqlAggregate, sqlSurv, sqlCounts, sqlTotal, sqlPct, firstsBy, sortDesc, insertDesc,
      distinctCount, sqlBrowserKey]
    norm_num [round1, jsRound]
  have hmem1 : (⟨"Chrome", 1, 1, 100⟩ : AggStat) ∈
      aggregateForDomain browserKeyForDomain true
        [⟨"a.com", "", none, none, some "Chrome", none, none, none, "1"⟩] := by
    rw [hout1]
    exact List.mem_singleton.mpr rfl
  have hmem2 : (⟨"Chrome", 1, 1, 100⟩ : AggStat) ∈
      sqlAggregate sqlBrowserKey 1 50
        [⟨"a.com", "", none, none, some "Chrome", none, none, none, "1"⟩] := by
    rw [hout2]
    exact List.mem_singleton.mpr rfl
  exact ⟨hmem1, c2_percentage_bounds.1 _ true _ _ hmem1,
    hmem2, c2_percentage_bounds.2.2.2 _ 1 50 _ _ hmem2⟩

lemma bot_partition_counted (key : PageView → String) (rows : List PageView) (r : PageView)
    (hr : r ∈ rows) (hkey : key r = "Bot") :
    ∃ e ∈ aggregateForDomain key true rows,
      e.key = "Bot" ∧ e.views = rows.countP (fun x => key x == "Bot") := by
  rcases @exists_firstsBy _ key _ _ hr with ⟨y, hy, hky⟩
  have hkyb : key y = "Bot" := by rw [hky, hkey]
  have hne : botFilter true rows ≠ [] := by
    show rows ≠ []
    intro h
    rw [h] at hr
    simp at hr
  refine ⟨statOfForDomain key (botFilter true rows) y, ?_, ?_, ?_⟩
  · exact mem_aggregateForDomain.mpr ⟨hne, y, hy, rfl⟩
  · exact hkyb
  · rw [statOfForDomain_views]
    show rows.countP (fun x => key x == key y) = rows.countP (fun x => key x == "Bot")
    rw [hkyb]

/-- C10: in the per-domain aggregations, a row whose browserNormalized is the
Bot sentinel is keyed "Bot" in the browser, OS and device groupings alike —
its osNormalized / deviceNormalized value is ignored — and with
includeBots = true the OS (resp. device) output holds a "Bot" partition whose
views count exactly the rows whose OS (resp. device) key is "Bot". -/
theorem c10_bot_rows_keyed_bot :
    (∀ r : PageView, r.browser = some "Bot" →
        osKeyForDomain r = "Bot" ∧ deviceKeyForDomain r = "Bot"
          ∧ browserKeyForDomain r = "Bot")
    ∧ (∀ (rows : List PageView) (r : PageView), r ∈ rows → r.browser = some "Bot" →
        ∃ e ∈ getOSStatsForDomain true rows,
          e.key = "Bot" ∧ e.views = rows.countP (fun x => osKeyForDomain x == "Bot"))
    ∧ (∀ (rows : List PageView) (r : PageView), r ∈ rows → r.browser = some "Bot" →
        ∃ e ∈ getDeviceStatsForDomain true rows,
          e.key = "Bot" ∧ e.views = rows.countP (fun x => deviceKeyForDomain x == "Bot")) := by
  refine ⟨?_, ?_, ?_⟩
  · intro r hb
    refine ⟨?_, ?_, ?_⟩ <;> simp [osKeyForDomain, deviceKeyForDomain, browserKeyForDomain, hb]
  · intro rows r hr hb
    exact bot_partition_counted osKeyForDomain rows r hr (by simp [osKeyForDomain, hb])
  · intro rows r hr hb
    exact bot_partition_counted deviceKeyForDomain rows r hr (by simp [deviceKeyForDomain, hb])

/-- Witness for C10 at a one-row input whose os and device fields are set. -/
theorem c10_bot_rows_keyed_bot_witness :
    (osKeyForDomain ⟨"a.com", "", none, none, some "Bot", some "Linux", some "Desktop",
          none, "1"⟩ = "Bot"
      ∧ deviceKeyForDomain ⟨"a.com", "", none, none, some "Bot", some "Linux", some "Desktop",
          none, "1"⟩ = "Bot"
      ∧ browserKeyForDomain ⟨"a.com", "", none, none, some "Bot", some "Linux", some "Desktop",
          none, "1"⟩ = "Bot")
    ∧ (∃ e ∈ getOSStatsForDomain true
          [⟨"a.com", "", none, none, some "Bot", some "Linux", some "Desktop", none, "1"⟩],
        e.key = "Bot"
          ∧ e.views = [(⟨"a.com", "", none, none, some "Bot", some "Linux", some "Desktop",
              none, "1"⟩ : PageView)].countP (fun x => osKeyForDomain x == "Bot")) := by
  exact ⟨c10_bot_rows_keyed_bot.1 _ rfl,
    c10_bot_rows_keyed_bot.2.1 _ _ (List.mem_singleton.mpr rfl) rfl⟩

/-- Counterexample to C3 as stated: the stored procedure browser section with
min_views = 2 drops the single one-view partition (HAVING COUNT(*) >= 2), so
on a one-row set the output is empty and the views of the output partitions
sum to 0, not to the row count 1. -/
theorem c3_counterexample :
    sqlAggregate sqlBrowserKey 2 50
        [⟨"a.com", "", none, none, some "Chrome", none, none, none, "1"⟩] = []
    ∧ ([⟨"a.com", "", none, none, some "Chrome", none, none, none, "1"⟩]
        : List PageView).length = 1 := by
  constructor
  · decide
  · rfl

/-- C3 amended: in the per-domain client aggregations the views of the output
partitions always sum to the number of rows that survive bot-filtering; in
the stored procedure the same equality holds provided min_views <= 1 and the
number of groups is within max_results_per_section (otherwise HAVING or LIMIT
drops partitions and the sum falls short). -/
theorem c3_views_partition_amended :
    (∀ (key : PageView → String) (ib : Bool) (rows : List PageView), rows ≠ [] →
        ((aggregateForDomain key ib rows).map (fun e => e.views)).sum
          = (botFilter ib rows).length)
    ∧ (∀ (key : PageView → String) (mv mr : ℕ) (rows : List PageView),
        mv ≤ 1 → (sqlCounts key rows).length ≤ mr →
        ((sqlAggregate key mv mr rows).map (fun e => e.views)).sum = rows.length) := by
  constructor
  · intro key ib rows _
    exact sum_views_aggregateForDomain key ib rows
  · intro key mv mr rows hmv hmr
    have hsurv : sqlSurv key mv rows = sqlCounts key rows := by
      apply List.filter_eq_self.mpr
      intro c hc
      simp only [decide_eq_true_eq]
      exact le_trans hmv (sqlCounts_views_pos hc)
    have htake : (sortDesc (·.views) (sqlSurv key mv rows)).take mr
        = sortDesc (·.views) (sqlSurv key mv rows) := by
      apply List.take_of_length_le
      rw [(sortDesc_perm _ _).length_eq, hsurv]
      exact hmr
    simp only [sqlAggregate]
    rw [htake, List.map_map]
    have hview : ((sortDesc (·.views) (sqlSurv key mv rows)).map
          ((fun (e : AggStat) => e.views) ∘ (fun c =>
            (⟨c.key, c.views, c.visitors, sqlPct (sqlTotal key mv rows) c.visitors⟩
              : AggStat))))
        = (sortDesc (·.views) (sqlSurv key mv rows)).map (fun c => c.views) := by
      apply List.map_congr_left
      intro c _
      rfl
    rw [hview]
    have hperm := (sortDesc_perm (fun c : SqlCount => c.views)
      (sqlSurv key mv rows)).map (fun c => c.views)
    rw [hperm.sum_eq, hsurv]
    rw [sqlCounts, List.map_map]
    have hc2 : ((firstsBy key rows).map
          ((fun (c : SqlCount) => c.views) ∘ (fun r0 =>
            (⟨key r0, (rows.filter (fun r => key r == key r0)).length,
              distinctCount ((rows.filter (fun r => key r == key r0)).map (·.ip))⟩
              : SqlCount))))
        = (firstsBy key rows).map (fun y => rows.countP (fun x => key x == key y)) := by
      apply List.map_congr_left
      intro y _
      exact (List.countP_eq_length_filter _ _).symm
    rw [hc2, sum_countP_firstsBy]

/-- Witness for the amended C3 at two-row inputs. -/
theorem c3_views_partition_amended_witness :
    ((aggregateForDomain browserKeyForDomain false
        [⟨"a.com", "", none, none, some "Bot", none, none, none, "1"⟩,
         ⟨"a.com", "", none, none, some "Chrome", none, none, none, "2"⟩]).map
          (fun e => e.views)).sum
      = (botFilter false
        [⟨"a.com", "", none, none, some "Bot", none, none, none, "1"⟩,
         ⟨"a.com", "", none, none, some "Chrome", none, none, none, "2"⟩]).length
    ∧ ((sqlAggregate sqlBrowserKey 1 50
        [⟨"a.com", "", none, none, some "Chrome", none, none, none, "1"⟩,
         ⟨"a.com", "", none, none, some "Firefox", none, none, none, "2"⟩]).map
          (fun e => e.views)).sum
      = ([⟨"a.com", "", none, none, some "Chrome", none, none, none, "1"⟩,
          ⟨"a.com", "", none, none, some "Firefox", none, none, none, "2"⟩]
          : List PageView).length := by
  exact ⟨c3_views_partition_amended.1 browserKeyForDomain false _ (by decide),
    c3_views_partition_amended.2 sqlBrowserKey 1 50 _ (by norm_num) (by decide)⟩

/-- Counterexample to C1 as stated: on two rows sharing one ip but with two
distinct browsers, the stored procedure divides by SUM(visitors) over the
partitions (= 2), not by the distinct-ip count of the filtered set (= 1), so
both partitions get percentage 50 where the claim predicts
round(1 / 1 * 100, 1) = 100. -/
theorem c1_counterexample :
    sqlAggregate sqlBrowserKey 1 50
        [⟨"a.com", "", none, none, some "A", none, none, none, "1"⟩,
         ⟨"a.com", "", none, none, some "B", none, none, none, "1"⟩]
      = [⟨"A", 1, 1, 50⟩, ⟨"B", 1, 1, 50⟩]
    ∧ distinctCount (([⟨"a.com", "", none, none, some "A", none, none, none, "1"⟩,
         ⟨"a.com", "", none, none, some "B", none, none, none, "1"⟩]
          : List PageView).map (·.ip)) = 1
    ∧ round1 ((1 * 100 : ℚ) / 1) = 100
    ∧ (50 : ℚ) ≠ 100 := by
  refine ⟨?_, by decide, by norm_num [round1, jsRound], by norm_num⟩
  simp [sqlAggregate, sqlSurv, sqlCounts, sqlTotal, sqlPct, firstsBy, sortDesc, insertDesc,
    distinctCount, sqlBrowserKey]
  norm_num [round1, jsRound]

/-- C1 amended: the percentage formula differs per call site.  In the stored
procedure each partition gets round(visitors / SUM(partition visitors) * 100, 1);
in the per-domain client aggregations each partition gets
Math.round(visitors / totalVisitors * 100) at integer precision with
totalVisitors the distinct-ip count of the bot-filtered set; in the site-wide
getBrowserStats each partition gets round(views / totalViews * 100, 1). -/
theorem c1_percentage_per_site_amended :
    (∀ (key : PageView → String) (mv mr : ℕ) (rows : List PageView) (e : AggStat),
        e ∈ sqlAggregate key mv mr rows →
        e.percentage = round1 ((e.visitors * 100 : ℚ) / sqlTotal key mv rows))
    ∧ (∀ (key : PageView → String) (ib : Bool) (rows : List PageView) (e : AggStat),
        e ∈ aggregateForDomain key ib rows →
        e.percentage = pctForDomain e.visitors
          (distinctCount ((botFilter ib rows).map (·.ip))))
    ∧ (∀ (rows : List PageView) (e : AggStat),
        e ∈ getBrowserStats rows →
        e.percentage = round1 ((e.views * 100 : ℚ)
          / (rows.filter (fun r => r.browser.isSome)).length)) := by
  refine ⟨?_, ?_, ?_⟩
  · intro key mv mr rows e he
    rcases mem_sqlAggregate.mp he with ⟨c, hc, rfl⟩
    have hpos := sqlTotal_pos (mem_surv_of_mem_sql hc)
    show sqlPct (sqlTotal key mv rows) c.visitors
      = round1 ((c.visitors * 100 : ℚ) / sqlTotal key mv rows)
    rw [sqlPct, if_neg (Nat.pos_iff_ne_zero.mp hpos)]
  · intro key ib rows e he
    rcases mem_aggregateForDomain.mp he with ⟨hne, r0, hr0, rfl⟩
    rfl
  · intro rows e he
    rcases mem_getBrowserStats.mp he with ⟨hne, r0, hr0, rfl⟩
    rfl

/-- Witness for the amended C1 at one-row inputs for each call site. -/
theorem c1_percentage_per_site_amended_witness :
    ((⟨"Chrome", 1, 1, 100⟩ : AggStat) ∈ sqlAggregate sqlBrowserKey 1 50
        [⟨"a.com", "", none, none, some "Chrome", none, none, none, "1"⟩])
    ∧ (⟨"Chrome", 1, 1, 100⟩ : AggStat).percentage
        = round1 (((⟨"Chrome", 1, 1, 100⟩ : AggStat).visitors * 100 : ℚ)
          / sqlTotal sqlBrowserKey 1
            [⟨"a.com", "", none, none, some "Chrome", none, none, none, "1"⟩])
    ∧ ((⟨"Chrome", 1, 1, 100⟩ : AggStat) ∈ aggregateForDomain browserKeyForDomain true
        [⟨"a.com", "", none, none, some "Chrome", none, none, none, "1"⟩])
    ∧ (⟨"Chrome", 1, 1, 100⟩ : AggStat).percentage
        = pctForDomain (⟨"Chrome", 1, 1, 100⟩ : AggStat).visitors
          (distinctCount ((botFilter true
            [⟨"a.com", "", none, none, some "Chrome", none, none, none, "1"⟩]).map (·.ip)))
    ∧ ((⟨"Chrome", 1, 1, 100⟩ : AggStat) ∈ getBrowserStats
        [⟨"a.com", "", none, none, some "Chrome", none, none, none, "1"⟩])
    ∧ (⟨"Chrome", 1, 1, 100⟩ : AggStat).percentage
        = round1 (((⟨"Chrome", 1, 1, 100⟩ : AggStat).views * 100 : ℚ)
          / (([⟨"a.com", "", none, none, some "Chrome", none, none, none, "1"⟩]
            : List PageView).filter (fun r => r.browser.isSome)).length) := by
  have hout1 : sqlAggregate sqlBrowserKey 1 50
      [⟨"a.com", "", none, none, some "Chrome", none, none, none, "1"⟩]
      = [⟨"Chrome", 1, 1, 100⟩] := by
    simp [sqlAggregate, sqlSurv, sqlCounts, sqlTotal, sqlPct, firstsBy, sortDesc, insertDesc,
      distinctCount, sqlBrowserKey]
    norm_num [round1, jsRound]
  have hout2 : aggregateForDomain browserKeyForDomain true
      [⟨"a.com", "", none, none, some "Chrome", none, none, none, "1"⟩]
      = [⟨"Chrome", 1, 1, 100⟩] := by
    simp [aggregateForDomain, statOfForDomain, botFilter, firstsBy, sortDesc, insertDesc,
      distinctCount, browserKeyForDomain, jsOrElse, pctForDomain]
    norm_num [jsRound]
  have hout3 : getBrowserStats
      [⟨"a.com", "", none, none, some "Chrome", none, none, none, "1"⟩]
      = [⟨"Chrome", 1, 1, 100⟩] := by
    simp [getBrowserStats, siteBrowserStatOf, firstsBy, sortDesc, insertDesc, distinctCount]
    norm_num [round1, jsRound]
  have hm1 : (⟨"Chrome", 1, 1, 100⟩ : AggStat) ∈ sqlAggregate sqlBrowserKey 1 50
      [⟨"a.com", "", none, none, some "Chrome", none, none, none, "1"⟩] := by
    rw [hout1]
    exact List.mem_singleton.mpr rfl
  have hm2 : (⟨"Chrome", 1, 1, 100⟩ : AggStat) ∈ aggregateForDomain browserKeyForDomain true
      [⟨"a.com", "", none, none, some "Chrome", none, none, none, "1"⟩] := by
    rw [hout2]
    exact List.mem_singleton.mpr rfl
  have hm3 : (⟨"Chrome", 1, 1, 100⟩ : AggStat) ∈ getBrowserStats
      [⟨"a.com", "", none, none, some "Chrome", none, none, none, "1"⟩] := by
    rw [hout3]
    exact List.mem_singleton.mpr rfl
  exact ⟨hm1, c1_percentage_per_site_amended.1 _ 1 50 _ _ hm1,
    hm2, c1_percentage_per_site_amended.2.1 _ true _ _ hm2,
    hm3, c1_percentage_per_site_amended.2.2 _ _ hm3⟩

/-- Counterexample to C9 as stated: the per-domain route parses includeBots
with === against the literal true string, so an absent parameter parses to
false, and on a row set holding a Bot row the bundle for an omitted parameter
differs from the bundle for includeBots equal to true. -/
theorem c9_counterexample :
    parseIncludeBots none = false
    ∧ (domainRouteBundle none
        [⟨"a.com", "", none, none, some "Bot", none, none, none, "1"⟩,
         ⟨"a.com", "", none, none, some "Chrome", none, none, none, "2"⟩]).1
      = [⟨"Chrome", 1, 1, 100⟩]
    ∧ (domainRouteBundle (some "true")
        [⟨"a.com", "", none, none, some "Bot", none, none, none, "1"⟩,
         ⟨"a.com", "", none, none, some "Chrome", none, none, none, "2"⟩]).1
      = [⟨"Bot", 1, 1, 50⟩, ⟨"Chrome", 1, 1, 50⟩]
    ∧ domainRouteBundle none
        [⟨"a.com", "", none, none, some "Bot", none, none, none, "1"⟩,
         ⟨"a.com", "", none, none, some "Chrome", none, none, none, "2"⟩]
      ≠ domainRouteBundle (some "true")
        [⟨"a.com", "", none, none, some "Bot", none, none, none, "1"⟩,
         ⟨"a.com", "", none, none, some "Chrome", none, none, none, "2"⟩] := by
  have h1 : (domainRouteBundle none
      [⟨"a.com", "", none, none, some "Bot", none, none, none, "1"⟩,
       ⟨"a.com", "", none, none, some "Chrome", none, none, none, "2"⟩]).1
      = [⟨"Chrome", 1, 1, 100⟩] := by
    simp [domainRouteBundle, parseIncludeBots, getBrowserStatsForDomain, aggregateForDomain,
      statOfForDomain, botFilter, firstsBy, sortDesc, insertDesc, distinctCount,
      browserKeyForDomain, jsOrElse, pctForDomain]
    norm_num [jsRound]
  have h2 : (domainRouteBundle (some "true")
      [⟨"a.com", "", none, none, some "Bot", none, none, none, "1"⟩,
       ⟨"a.com", "", none, none, some "Chrome", none, none, none, "2"⟩]).1
      = [⟨"Bot", 1, 1, 50⟩, ⟨"Chrome", 1, 1, 50⟩] := by
    simp [domainRouteBundle, parseIncludeBots, getBrowserStatsForDomain, aggregateForDomain,
      statOfForDomain, botFilter, firstsBy, sortDesc, insertDesc, distinctCount,
      browserKeyForDomain, jsOrElse, pctForDomain]
    norm_num [jsRound]
  refine ⟨rfl, h1, h2, ?_⟩
  intro h
  have hfst := congrArg (fun t => t.1) h
  simp only at hfst
  rw [h1, h2] at hfst
  simp at hfst

/-- C9 amended: the per-domain stats route computes includeBots = false when
the query parameter is omitted, identically to an explicit
includeBots equal to the literal false string. -/
theorem c9_includebots_default_amended :
    parseIncludeBots none = false
    ∧ parseIncludeBots (some "false") = false
    ∧ (∀ rows : List PageView,
        domainRouteBundle none rows = domainRouteBundle (some "false") rows) := by
  have h1 : parseIncludeBots none = false := rfl
  have h2 : parseIncludeBots (some "false") = false := by decide
  refine ⟨h1, h2, ?_⟩
  intro rows
  simp only [domainRouteBundle, h1, h2]

/-- Counterexample to C7 as stated: the site-wide getBrowserStats excludes
rows whose browser_normalized is null through its
.not('browser_normalized', 'is', null) query filter, so a one-row set whose
only row has a null browser yields an empty output instead of the claimed
single placeholder bucket at 100 percent. -/
theorem c7_counterexample :
    getBrowserStats [⟨"a.com", "", none, none, none, none, none, none, "1"⟩] = []
    ∧ ([] : List AggStat) ≠ [⟨"Other", 1, 1, 100⟩] := by
  constructor
  · simp [getBrowserStats]
  · simp

/-- C7 amended: a row with a null dimension value is kept and bucketed in the
stored procedure (COALESCE to the literal Other) and in the per-domain client
aggregations (the || fallback to the literal Unknown); an all-null non-empty
row set yields a single Other (resp. Unknown) bucket with percentage 100
there.  The site-wide client aggregations such as getBrowserStats instead
exclude null-valued rows before any counting through a not-null query filter,
so there the null rows are dropped. -/
theorem c7_missing_value_amended :
    (∀ rows : List PageView, rows ≠ [] → (∀ r ∈ rows, r.browser = none) →
        sqlAggregate sqlBrowserKey 1 50 rows
          = [⟨"Other", rows.length, distinctCount (rows.map (·.ip)), 100⟩])
    ∧ (∀ (ib : Bool) (rows : List PageView), rows ≠ [] → (∀ r ∈ rows, r.browser = none) →
        getBrowserStatsForDomain ib rows
          = [⟨"Unknown", rows.length, distinctCount (rows.map (·.ip)), 100⟩])
    ∧ (∀ rows : List PageView, (∀ r ∈ rows, r.browser = none) →
        getBrowserStats rows = []) := by
  refine ⟨?_, ?_, ?_⟩
  · intro rows hne hall
    rcases rows with _ | ⟨x, t⟩
    · exact absurd rfl hne
    have hkx : sqlBrowserKey x = "Other" := by
      simp [sqlBrowserKey, hall x (List.mem_cons_self _ _)]
    have hkeys : ∀ y ∈ x :: t, sqlBrowserKey y = sqlBrowserKey x := by
      intro y hy
      simp [sqlBrowserKey, hall y hy, hall x (List.mem_cons_self _ _)]
    have hfb : firstsBy sqlBrowserKey (x :: t) = [x] :=
      firstsBy_all_eq x t (fun y hy => hkeys y (List.mem_cons_of_mem _ hy))
    have hfilter : (x :: t).filter (fun r => sqlBrowserKey r == sqlBrowserKey x) = x :: t := by
      apply List.filter_eq_self.mpr
      intro r hr
      simp [hkeys r hr]
    have hcounts : sqlCounts sqlBrowserKey (x :: t)
        = [⟨sqlBrowserKey x, (x :: t).length, distinctCount ((x :: t).map (·.ip))⟩] := by
      rw [sqlCounts, hfb]
      simp [hfilter]
    have hd_pos : 0 < distinctCount ((x :: t).map (·.ip)) := distinctCount_pos (by simp)
    have hsurv : sqlSurv sqlBrowserKey 1 (x :: t)
        = [⟨sqlBrowserKey x, (x :: t).length, distinctCount ((x :: t).map (·.ip))⟩] := by
      rw [sqlSurv, hcounts]
      apply List.filter_eq_self.mpr
      intro c hc
      simp only [List.mem_singleton] at hc
      subst hc
      simp only [decide_eq_true_eq]
      simp [List.length_cons]
    have htotal : sqlTotal sqlBrowserKey 1 (x :: t) = distinctCount ((x :: t).map (·.ip)) := by
      rw [sqlTotal, hsurv]
      simp
    simp only [sqlAggregate, hsurv, htotal]
    simp [sortDesc, insertDesc, hkx]
    exact sqlPct_self (by simpa using hd_pos)
  · intro ib rows hne hall
    rcases rows with _ | ⟨x, t⟩
    · exact absurd rfl hne
    have hbf : botFilter ib (x :: t) = x :: t := by
      cases ib
      · simp only [botFilter, Bool.false_eq_true, if_false]
        apply List.filter_eq_self.mpr
        intro r hr
        simp [hall r hr]
      · simp [botFilter]
    have hkx : browserKeyForDomain x = "Unknown" := by
      simp [browserKeyForDomain, jsOrElse, hall x (List.mem_cons_self _ _)]
    have hkeys : ∀ y ∈ x :: t, browserKeyForDomain y = browserKeyForDomain x := by
      intro y hy
      simp [browserKeyForDomain, jsOrElse, hall y hy, hall x (List.mem_cons_self _ _)]
    have hfb : firstsBy browserKeyForDomain (x :: t) = [x] :=
      firstsBy_all_eq x t (fun y hy => hkeys y (List.mem_cons_of_mem _ hy))
    have hfilter : (x :: t).filter (fun r => browserKeyForDomain r == browserKeyForDomain x)
        = x :: t := by
      apply List.filter_eq_self.mpr
      intro r hr
      simp [hkeys r hr]
    have hd_pos : 0 < distinctCount ((x :: t).map (·.ip)) := distinctCount_pos (by simp)
    rw [getBrowserStatsForDomain]
    simp only [aggregateForDomain, hbf]
    rw [if_neg (by simp)]
    rw [hfb]
    simp only [List.map_cons, List.map_nil, statOfForDomain, hfilter]
    simp [sortDesc, insertDesc, hkx]
    exact pctForDomain_self (by simpa using hd_pos)
  · intro rows hall
    have hdata : rows.filter (fun r => r.browser.isSome) = [] := by
      apply List.filter_eq_nil_iff.mpr
      intro r hr
      simp [hall r hr]
    simp [getBrowserStats, hdata]

/-- Witness for the amended C7 at two-row all-null inputs. -/
theorem c7_missing_value_amended_witness :
    sqlAggregate sqlBrowserKey 1 50
        [⟨"a.com", "", none, none, none, none, none, none, "1"⟩,
         ⟨"b.com", "", none, none, none, none, none, none, "1"⟩]
      = [⟨"Other", 2, 1, 100⟩]
    ∧ getBrowserStatsForDomain false
        [⟨"a.com", "", none, none, none, none, none, none, "1"⟩,
         ⟨"b.com", "", none, none, none, none, none, none, "1"⟩]
      = [⟨"Unknown", 2, 1, 100⟩]
    ∧ getBrowserStats
        [⟨"a.com", "", none, none, none, none, none, none, "1"⟩,
         ⟨"b.com", "", none, none, none, none, none, none, "1"⟩]
      = [] := by
  refine ⟨?_, ?_, c7_missing_value_amended.2.2 _ (by decide)⟩
  · have h := c7_missing_value_amended.1
      [⟨"a.com", "", none, none, none, none, none, none, "1"⟩,
       ⟨"b.com", "", none, none, none, none, none, none, "1"⟩] (by decide) (by decide)
    rw [h]
    norm_num [distinctCount]
  · have h := c7_missing_value_amended.2.1 false
      [⟨"a.com", "", none, none, none, none, none, none, "1"⟩,
       ⟨"b.com", "", none, none, none, none, none, none, "1"⟩] (by decide) (by decide)
    rw [h]
    norm_num [distinctCount]

/-- Counterexample to C8 as stated: the route keys the Map on the string
referrerPage + pipe + targetPage, so the two distinct exact pairs
(referrerPage r pipe x, targetPage t) and (referrerPage r, targetPage x pipe t)
collide on one key and produce a single output entry where exact-pair
grouping would produce two. -/
theorem c8_counterexample :
    statsReferrerGET
        [⟨"t", "", some "r|x", none, none, none, none, none, "1"⟩,
         ⟨"x", "|t", some "r", none, none, none, none, none, "2"⟩]
      = [⟨"r|x", "t", 2, 2, 100⟩]
    ∧ (rowReferrerPage ⟨"t", "", some "r|x", none, none, none, none, none, "1"⟩,
        rowTargetPage ⟨"t", "", some "r|x", none, none, none, none, none, "1"⟩)
      ≠ (rowReferrerPage ⟨"x", "|t", some "r", none, none, none, none, none, "2"⟩,
        rowTargetPage ⟨"x", "|t", some "r", none, none, none, none, none, "2"⟩)
    ∧ (statsReferrerGET
        [⟨"t", "", some "r|x", none, none, none, none, none, "1"⟩,
         ⟨"x", "|t", some "r", none, none, none, none, none, "2"⟩]).length ≠ 2 := by
  have h1 : statsReferrerGET
      [⟨"t", "", some "r|x", none, none, none, none, none, "1"⟩,
       ⟨"x", "|t", some "r", none, none, none, none, none, "2"⟩]
      = [⟨"r|x", "t", 2, 2, 100⟩] := by
    simp [statsReferrerGET, pairStatOf, rowPairKey, rowReferrerPage, rowTargetPage, jsOrElse,
      firstsBy, sortDesc, insertDesc, distinctCount]
    norm_num [round1, jsRound]
  refine ⟨h1, by decide, ?_⟩
  rw [h1]
  decide

/-- C8 amended: the referrer pair route groups matched rows by the
concatenated string referrerPage, pipe, targetPage — which coincides with
grouping by the exact pair whenever neither component holds a pipe — with
targetPage = domain + path and a missing referrer replaced by the literal
Direct / None; each entry counts the views and distinct-ip visitors of its
key, its percentage is round(views / totalViews * 100, 1) with totalViews the
number of all matched rows, and the output is sorted descending by views; the
two-row scenario of the claim holds as stated. -/
theorem c8_pair_aggregation_amended :
    (∀ (rows : List PageView) (e : PairStat), e ∈ statsReferrerGET rows →
        e.percentage = round1 ((e.views * 100 : ℚ) / rows.length))
    ∧ (∀ (rows : List PageView) (e : PairStat), e ∈ statsReferrerGET rows →
        e.views = rows.countP (fun r =>
            rowPairKey r == e.referrerPage ++ "|" ++ e.targetPage)
          ∧ e.visitors = distinctCount ((rows.filter (fun r =>
              rowPairKey r == e.referrerPage ++ "|" ++ e.targetPage)).map (·.ip)))
    ∧ (∀ rows : List PageView,
        (statsReferrerGET rows).Pairwise (fun a b => b.views ≤ a.views))
    ∧ statsReferrerGET
        [⟨"a.com", "/x", some "ref.com", none, none, none, none, none, "1"⟩,
         ⟨"a.com", "/x", some "ref.com", none, none, none, none, none, "1"⟩]
      = [⟨"ref.com", "a.com/x", 2, 1, 100⟩] := by
  refine ⟨?_, ?_, ?_, ?_⟩
  · intro rows e he
    rcases mem_statsReferrerGET.mp he with ⟨hne, r0, hr0, rfl⟩
    rfl
  · intro rows e he
    rcases mem_statsReferrerGET.mp he with ⟨hne, r0, hr0, rfl⟩
    exact ⟨(List.countP_eq_length_filter _ _).symm, rfl⟩
  · intro rows
    simp only [statsReferrerGET]
    by_cases he : rows.isEmpty
    · rw [if_pos he]
      simp
    · rw [if_neg he]
      exact sortDesc_sorted _ _
  · simp [statsReferrerGET, pairStatOf, rowPairKey, rowReferrerPage, rowTargetPage, jsOrElse,
      firstsBy, sortDesc, insertDesc, distinctCount]
    norm_num [round1, jsRound]

/-- Witness for the amended C8 at the scenario input. -/
theorem c8_pair_aggregation_amended_witness :
    ((⟨"ref.com", "a.com/x", 2, 1, 100⟩ : PairStat) ∈ statsReferrerGET
        [⟨"a.com", "/x", some "ref.com", none, none, none, none, none, "1"⟩,
         ⟨"a.com", "/x", some "ref.com", none, none, none, none, none, "1"⟩])
    ∧ (⟨"ref.com", "a.com/x", 2, 1, 100⟩ : PairStat).percentage
      = round1 (((⟨"ref.com", "a.com/x", 2, 1, 100⟩ : PairStat).views * 100 : ℚ)
          / ([⟨"a.com", "/x", some "ref.com", none, none, none, none, none, "1"⟩,
              ⟨"a.com", "/x", some "ref.com", none, none, none, none, none, "1"⟩]
              : List PageView).length)
    ∧ (⟨"ref.com", "a.com/x", 2, 1, 100⟩ : PairStat).views
      = ([⟨"a.com", "/x", some "ref.com", none, none, none, none, none, "1"⟩,
          ⟨"a.com", "/x", some "ref.com", none, none, none, none, none, "1"⟩]
          : List PageView).countP (fun r => rowPairKey r ==
            (⟨"ref.com", "a.com/x", 2, 1, 100⟩ : PairStat).referrerPage ++ "|"
              ++ (⟨"ref.com", "a.com/x", 2, 1, 100⟩ : PairStat).targetPage) := by
  have hmem : (⟨"ref.com", "a.com/x", 2, 1, 100⟩ : PairStat) ∈ statsReferrerGET
      [⟨"a.com", "/x", some "ref.com", none, none, none, none, none, "1"⟩,
       ⟨"a.com", "/x", some "ref.com", none, none, none, none, none, "1"⟩] := by
    rw [c8_pair_aggregation_amended.2.2.2]
    exact List.mem_singleton.mpr rfl
  exact ⟨hmem, c8_pair_aggregation_amended.1 _ _ hmem,
    (c8_pair_aggregation_amended.2.1 _ _ hmem).1⟩

lemma bool_eq_of_iff {a b : Bool} (h : a = true ↔ b = true) : a = b := by
  cases a <;> cases b <;> simp_all

lemma dotCons_literal {s : String} (h : noLikeMeta s) :
    ∀ c ∈ '.' :: s.data, c ≠ '%' ∧ c ≠ '_' ∧ c ≠ '\\' := by
  intro c hc
  rcases List.mem_cons.mp hc with rfl | hc
  · exact ⟨by decide, by decide, by decide⟩
  · exact h c hc

lemma likeMatch_dot_isSuffixOf {dom : String} (h : noLikeMeta dom) (s : List Char) :
    likeMatch ('%' :: '.' :: dom.data) s = ('.' :: dom.data).isSuffixOf s := by
  apply bool_eq_of_iff
  rw [likeMatch_pct_literal _ (dotCons_literal h) s, List.isSuffixOf_iff_suffix]

/-- Counterexample to C5 as stated: the SQL self-referral test uses LIKE with
the domain spliced into the pattern, so an underscore in the domain acts as a
single-character wildcard.  The row with domain a_b and referrer x.acb is
removed by the code (x.acb matches the pattern percent dot a_b) although it
satisfies none of the three conditions of the claim, while with the flag off
it is retained. -/
theorem c5_counterexample :
    refKeepRow true ⟨"a_b", "", none, some "x.acb", none, none, none, none, "1"⟩ = false
    ∧ specSelfReferral "x.acb" "a_b" = false
    ∧ refKeepRow false ⟨"a_b", "", none, some "x.acb", none, none, none, none, "1"⟩
        = true := by
  refine ⟨by decide, by decide, by decide⟩

/-- C5 amended: the referrer filter keeps exactly the non-null-referrer rows
when excludeSelfReferrals is false; when it is true it removes exactly the
rows satisfying the LIKE-based self-referral condition, in which an
underscore or percent inside the data acts as a wildcard.  On rows whose
domain and referrer contain no LIKE metacharacter the condition coincides
with the claimed characterisation: referrer = domain, or referrer ends with
dot-domain, or domain ends with dot-referrer. -/
theorem c5_self_referral_amended :
    (∀ ref dom : String, noLikeMeta dom →
        (likeMatch ('%' :: '.' :: dom.data) ref.data = true ↔ ('.' :: dom.data) <:+ ref.data))
    ∧ (∀ rows : List PageView,
        referrerFilteredViews false rows = rows.filter (fun r => r.referrer.isSome))
    ∧ (∀ rows : List PageView,
        (∀ r ∈ rows, noLikeMeta r.domain ∧ ∀ ref, r.referrer = some ref → noLikeMeta ref) →
        referrerFilteredViews true rows = rows.filter (fun r =>
          match r.referrer with
          | none => false
          | some ref => !(specSelfReferral ref r.domain))) := by
  refine ⟨?_, ?_, ?_⟩
  · intro ref dom hmeta
    rw [likeMatch_pct_literal _ (dotCons_literal hmeta) ref.data]
  · intro rows
    apply List.filter_congr
    intro r _
    cases hr : r.referrer <;> simp [refKeepRow, hr]
  · intro rows h
    apply List.filter_congr
    intro r hrmem
    obtain ⟨hdom, href⟩ := h r hrmem
    cases hr : r.referrer with
    | none => simp [refKeepRow, hr]
    | some ref =>
      have hmref : noLikeMeta ref := href ref hr
      have hlike : selfReferralLike ref r.domain = specSelfReferral ref r.domain := by
        rw [selfReferralLike, specSelfReferral,
          likeMatch_dot_isSuffixOf hdom ref.data, likeMatch_dot_isSuffixOf hmref r.domain.data]
      simp only [refKeepRow, hr, hlike]
      simp

/-- Witness for the amended C5: a clean-string self-referral row is removed
with the flag on, and the LIKE test agrees with the suffix test. -/
theorem c5_self_referral_amended_witness :
    (likeMatch ('%' :: '.' :: ("ab" : String).data) ("x.ab" : String).data = true
      ↔ ('.' :: ("ab" : String).data) <:+ ("x.ab" : String).data)
    ∧ referrerFilteredViews true
        [⟨"a.com", "", none, some "a.com", none, none, none, none, "1"⟩]
      = ([⟨"a.com", "", none, some "a.com", none, none, none, none, "1"⟩]
          : List PageView).filter (fun r =>
            match r.referrer with
            | none => false
            | some ref => !(specSelfReferral ref r.domain)) := by
  refine ⟨c5_self_referral_amended.1 "x.ab" "ab" (by decide), ?_⟩
  apply c5_self_referral_amended.2.2
  intro r hr
  rw [List.mem_singleton.mp hr]
  refine ⟨by decide, ?_⟩
  intro ref href
  have : ref = "a.com" := by
    injection href with h2
    exact h2.symm
  rw [this]
  decide

/-- C6: the claim states the intent of get_dashboard_data.sql (the comment
Extract root domain and the group_referrers_by_domain parameter), but the
deployed code does not perform it: the doubled backslash in the pattern
literal makes the regular expression demand a literal backslash character,
so an ordinary referrer such as sub.site.com is left unchanged instead of
being collapsed to its rightmost two labels site.com, two referrers sharing
those labels are grouped apart, and a referrer that does hold a backslash in
the matching position is replaced by the literal two-character string
backslash one. -/
theorem c6_regex_escaping_bug :
    extractRootDomain "sub.site.com" = "sub.site.com"
    ∧ specRightmostTwoLabels "sub.site.com" = "site.com"
    ∧ ("sub.site.com" : String) ≠ "site.com"
    ∧ referrerKey true
        ⟨"a.com", "", none, some "sub.site.com", none, none, none, none, "1"⟩
      ≠ referrerKey true
        ⟨"a.com", "", none, some "x.site.com", none, none, none, none, "2"⟩
    ∧ extractRootDomain "ab\\cd" = "\\1" := by
  refine ⟨by decide, by decide, by decide, by decide, by decide⟩
